import Mathlib

/-!
Shallow embedding of the coupled time-integration engine of
`smart/model.py` (class `Model`), restricted to the parts the
specification's claims are about: the simulation clock
(`rounded_decimal`, `set_time`, `set_dt`, `forward_time_step`),
the step-size controller (`adjust_dt_if_prescribed`,
`adjust_dt_if_pass_tfinal`), the failure/rollback machinery
(`reset_timestep`, the driver `monolithic_solve`), the active-compartment
setup (`_init_4_1_get_active_compartments`), the block-residual
decomposition helpers (`get_block_F` sub-form handling, `get_mesh_by_id`),
the time-dependent parameter updater
(`update_time_dependent_parameters`) and the xdmf vector loader
(`load_vector`).

Times and values are modelled as rationals.  Python `Decimal`
quantization (`Decimal(x).quantize(self._base_t)`, default rounding
ROUND_HALF_EVEN) is modelled exactly by `quantize` below; the quantum is
`10 ^ (-p)` where `p` is `config.solver["time_precision"]`
(`self._base_t = Decimal("0.0...01")` with `p` digits).
-/

namespace Smart

/-- Round a rational to the nearest integer, ties to even
(the rounding mode of Python `Decimal.quantize`, ROUND_HALF_EVEN). -/
def roundHalfEven (x : ℚ) : ℤ :=
  let f := ⌊x⌋
  let r := x - f
  if r < 1/2 then f
  else if 1/2 < r then f + 1
  else if 2 ∣ f then f else f + 1

/-- Embedding of `Decimal(x).quantize(base_t)` with `base_t = 10^(-p)`:
round `x` to `p` decimal places, ties to even.
Embeds `Model.rounded_decimal` (model.py:2219-2221). -/
def quantize (p : ℕ) (x : ℚ) : ℚ :=
  (roundHalfEven (x * 10 ^ p) : ℚ) / 10 ^ p

/-- Predicate: `x` is representable at `p` decimal places (a multiple of the quantum). -/
def isQuant (p : ℕ) (x : ℚ) : Prop :=
  ∃ n : ℤ, x = (n : ℚ) / 10 ^ p

theorem roundHalfEven_intCast (n : ℤ) : roundHalfEven (n : ℚ) = n := by
  unfold roundHalfEven
  simp

theorem quantize_eq_self (p : ℕ) (x : ℚ) (h : isQuant p x) : quantize p x = x := by
  obtain ⟨n, rfl⟩ := h
  unfold quantize
  have hp : (10 : ℚ) ^ p ≠ 0 := by positivity
  rw [div_mul_cancel₀ _ hp, roundHalfEven_intCast]

theorem isQuant_quantize (p : ℕ) (x : ℚ) : isQuant p (quantize p x) :=
  ⟨roundHalfEven (x * 10 ^ p), rfl⟩

theorem isQuant_add {p : ℕ} {x y : ℚ} (hx : isQuant p x) (hy : isQuant p y) :
    isQuant p (x + y) := by
  obtain ⟨n, rfl⟩ := hx
  obtain ⟨m, rfl⟩ := hy
  exact ⟨n + m, by push_cast; ring⟩

theorem isQuant_sub {p : ℕ} {x y : ℚ} (hx : isQuant p x) (hy : isQuant p y) :
    isQuant p (x - y) := by
  obtain ⟨n, rfl⟩ := hx
  obtain ⟨m, rfl⟩ := hy
  exact ⟨n - m, by push_cast; ring⟩

theorem isQuant_max {p : ℕ} {x y : ℚ} (hx : isQuant p x) (hy : isQuant p y) :
    isQuant p (max x y) := by
  rcases max_cases x y with ⟨h, _⟩ | ⟨h, _⟩ <;> rw [h] <;> assumption

theorem quantize_add_eq {p : ℕ} {x y : ℚ} (hx : isQuant p x) (hy : isQuant p y) :
    quantize p (x + y) = x + y :=
  quantize_eq_self p _ (isQuant_add hx hy)

theorem quantize_quantize (p : ℕ) (x : ℚ) :
    quantize p (quantize p x) = quantize p x :=
  quantize_eq_self p _ (isQuant_quantize p x)

/-- The clock / solver bookkeeping state of `Model`
(the fields touched by the stepping code, model.py:135-236 and 1456-1820).
`p` is `config.solver["time_precision"]`; `adjust_dt` is the checkpoint
queue `config.solver["adjust_dt"]` (Python `None` and `[]` both modelled
as `[]`); `u`/`un` are the flattened solution vectors `u["u"]`/`u["n"]`. -/
structure ModelState where
  p : ℕ
  t : ℚ
  tn : ℚ
  dt : ℚ
  final_t : ℚ
  idx : ℤ
  tvec : List ℚ
  dtvec : List ℚ
  idx_nl : List ℕ
  idx_l : List ℕ
  adjust_dt : List (ℚ × ℚ)
  reset_dt : Bool
  failed_to_converge : Bool
  u : List ℚ
  un : List ℚ
  failed_solves : List (ℤ × ℕ × ℕ × ℚ × ℚ × ℤ)
  deriving Repr, DecidableEq

/-- Embeds `Model.set_time` (model.py:1456-1461): assign `t`
(the guard `if t != self.t` only skips the debug log). -/
def set_time (s : ModelState) (t : ℚ) : ModelState :=
  { s with t := t }

/-- Embeds `Model.set_dt` (model.py:1463-1472): quantize via `rounded_decimal`,
then `round(dt, time_precision)` (a second, idempotent quantization),
then assign. -/
def set_dt (s : ModelState) (dt : ℚ) : ModelState :=
  { s with dt := quantize s.p (quantize s.p dt) }

/-- Embeds `Model.adjust_dt_if_prescribed` (model.py:1474-1542).
`.error` models the `AssertionError` raised when the next checkpoint
time is already in the past. -/
def adjust_dt_if_prescribed (s : ModelState) : Except String ModelState :=
  match s.adjust_dt with
  | [] => .ok s
  | (ta, da) :: rest =>
    let tnow := quantize s.p s.t
    let tnext := quantize s.p (tnow + quantize s.p s.dt)
    let tadjust := quantize s.p ta
    let dtadjust := quantize s.p da
    if s.reset_dt = true ∨ tadjust = tnow then
      .ok { (set_dt s dtadjust) with adjust_dt := rest, reset_dt := false }
    else if tadjust < tnow then
      .error "tadjust (Next time to adjust dt) is smaller than current time."
    else if tnow < tadjust ∧ tadjust ≤ tnext then
      let new_dt := quantize s.p (max (tadjust - tnow) dtadjust)
      if dtadjust > tadjust - tnow then
        .ok { (set_dt s new_dt) with adjust_dt := rest, reset_dt := false }
      else
        .ok { (set_dt s new_dt) with reset_dt := true }
    else
      .ok s

/-- Embeds `Model.adjust_dt_if_pass_tfinal` (model.py:1544-1556): if `t + dt`
would pass `final_t`, clip `dt` to `round(final_t - t, time_precision)`. -/
def adjust_dt_if_pass_tfinal (s : ModelState) : ModelState :=
  if s.t + s.dt > s.final_t then
    set_dt s (quantize s.p (s.final_t - s.t))
  else s

/-- Embeds `Model.forward_time_step` (model.py:1558-1569): re-quantize `dt`
(once by `rounded_decimal`, once by `round(., time_precision)`), save
`tn`, advance `t`, and append to the `(t, dt)` history. -/
def forward_time_step (s : ModelState) : ModelState :=
  let dt2 := quantize s.p (quantize s.p s.dt)
  let tn' := quantize s.p s.t
  let t' := quantize s.p (s.t + dt2)
  { s with
    dt := dt2,
    tn := tn',
    t := t',
    tvec := s.tvec ++ [t'],
    dtvec := s.dtvec ++ [dt2] }

/-- Embeds `update_solution(ukeys=["n"], unew="u")` (model.py:1948-1960, the
post-step default): copy the current solution into the previous-step slot. -/
def update_solution_to_n (s : ModelState) : ModelState :=
  { s with un := s.u }

/-- Embeds `update_solution(ukeys=["u"], unew="n")` (used by `reset_timestep`):
copy the previous-step solution back into the current slot. -/
def update_solution_from_n (s : ModelState) : ModelState :=
  { s with u := s.un }

/-- Embeds `Model.reset_timestep` (model.py:1791-1820) with the default
`dt_scale=0.20`: revert `t` to `tvec[-2]`, shrink `dt` to a fifth of the
failed step's `dt`, record the failure, pop the history entries of the
failed step and restore the solution from the previous-step slot.
`reason` stands for `self.solver.getConvergedReason()`.  `none` models
the `IndexError` Python would raise on too-short history lists
(`tvec[-2]` needs at least two entries). -/
def reset_timestep (s : ModelState) (reason : ℤ) : Option ModelState :=
  if s.tvec.length < 2 then none else
  match s.dtvec.getLast?, s.idx_nl.getLast?, s.idx_l.getLast?, s.tvec.getLast? with
  | some dlast, some nlast, some llast, some tlast =>
    let s1 := set_time s (s.tvec.getD (s.tvec.length - 2) 0)
    let s2 := set_dt s1 (dlast * (1/5))
    let s3 := { s2 with
      failed_solves := s2.failed_solves ++ [(s2.idx, nlast, llast, tlast, dlast, reason)],
      idx := s2.idx - 1,
      idx_nl := s2.idx_nl.dropLast,
      idx_l := s2.idx_l.dropLast,
      tvec := s2.tvec.dropLast,
      dtvec := s2.dtvec.dropLast }
    some (update_solution_from_n s3)
  | _, _, _, _ => none

/-- The two solver-policy switches of `config.solver` consulted by
`monolithic_solve`. -/
structure SolverConfig where
  reset_timestep_for_negative_solution : Bool
  attempt_timestep_restart_on_divergence : Bool
  deriving Repr, DecidableEq

/-- What one invocation of `self.solver.solve(None, self._ubackend)`
produces: the new iterate written into `u["u"]`, the convergence flag,
the iteration counts and the PETSc converged-reason code.  The linear
algebra itself is an external collaborator, so a solve outcome is an
input of the embedding. -/
structure SolveOutcome where
  u : List ℚ
  converged : Bool
  nl_its : ℕ
  l_its : ℕ
  reason : ℤ
  deriving Repr, DecidableEq

/-- Result of one invocation body of `monolithic_solve`:
the step was accepted, or the body called `reset_timestep` and would
recurse (`retry`), or it raised (`fatal`). -/
inductive StepResult where
  | accepted (s : ModelState)
  | retry (s : ModelState)
  | fatal (msg : String)
  deriving Repr, DecidableEq

/-- The post-check clamp of model.py:1711-1719: every strictly negative
solution component is set to zero. -/
def clampNeg (v : List ℚ) : List ℚ :=
  v.map (fun x => if x < 0 then 0 else x)

/-- The part of the `monolithic_solve` invocation body after the `dt`
adjustments (model.py:1602-1789): the `dt <= 0` guard, the clock
advance, the solve itself and the two failure policies. -/
def monolithic_attempt_solve (cfg : SolverConfig) (out : SolveOutcome)
    (s0 : ModelState) : StepResult :=
  if s0.dt ≤ 0 then .fatal "dt is <= 0"
  else
    let s := forward_time_step s0
    let s := { s with
      u := out.u,
      idx_nl := s.idx_nl ++ [out.nl_its],
      idx_l := s.idx_l ++ [out.l_its] }
    if cfg.reset_timestep_for_negative_solution = true ∧
        s.u.any (fun x => x < -(1/1000000)) then
      match reset_timestep s out.reason with
      | some s' => .retry { s' with failed_to_converge := true }
      | none => .fatal "IndexError"
    else
      let s := if cfg.reset_timestep_for_negative_solution then
        { s with u := clampNeg s.u } else s
      if out.converged = false then
        if cfg.attempt_timestep_restart_on_divergence = false then
          .fatal "SNES diverged and attempt_timestep_restart_on_divergence is False. Exiting."
        else
          match reset_timestep s out.reason with
          | some s' => .retry { s' with failed_to_converge := true }
          | none => .fatal "IndexError"
      else
        update_solution_to_n { s with failed_to_converge := false } |> .accepted

/-- One invocation body of `Model.monolithic_solve`
(model.py:1573-1789, the `use_snes=True` path):
increment the step index; unless the previous attempt failed, run the two
`dt` adjustments; then (in `monolithic_attempt_solve`, the part of the
body after the adjustments) reject `dt <= 0`, advance the clock, solve
(modelled by the `out` oracle; the time-dependent parameter update is
modelled separately by `update_parameter`), and apply the
negative-solution policy and the divergence policy.  The recursive
self-call after `reset_timestep` is represented by `StepResult.retry`. -/
def monolithic_attempt (cfg : SolverConfig) (out : SolveOutcome)
    (s0 : ModelState) : StepResult :=
  let s := { s0 with idx := s0.idx + 1 }
  let adjusted : Except String ModelState :=
    if s.failed_to_converge then .ok s
    else (adjust_dt_if_prescribed s).map adjust_dt_if_pass_tfinal
  match adjusted with
  | .error e => .fatal e
  | .ok s => monolithic_attempt_solve cfg out s

/-- Embeds `Model.monolithic_solve` including its recursive retries.
`oracle k` is the solve outcome of the `k`-th attempt of this step;
`fuel` bounds the recursion depth (the Python recursion is unbounded, so
running out of fuel is reported as an error distinct from any Python
behaviour). -/
def monolithic_solve (cfg : SolverConfig) (oracle : ℕ → SolveOutcome) :
    ℕ → ℕ → ModelState → Except String ModelState
  | 0, _, _ => .error "fuel exhausted"
  | fuel + 1, k, s =>
    match monolithic_attempt cfg (oracle k) s with
    | .accepted s' => .ok s'
    | .fatal e => .error e
    | .retry s' => monolithic_solve cfg oracle fuel (k + 1) s'

/-- A run of `n` top-level steps (`n` successive calls of
`monolithic_solve`, each with its own retry oracle). -/
def run_steps (cfg : SolverConfig) (oracle : ℕ → ℕ → SolveOutcome)
    (fuel : ℕ) : ℕ → ModelState → Except String ModelState
  | 0, s => .ok s
  | n + 1, s =>
    match monolithic_solve cfg (oracle n) fuel 0 s with
    | .ok s' => run_steps cfg oracle fuel n s'
    | .error e => .error e

/-- The clock state `Model.initialize` sets up (model.py:226-236):
`t = rounded_decimal(0.0)`, `dt = rounded_decimal(initial_dt)`,
`final_t = rounded_decimal(final_t)`, `tvec = [t]`, `dtvec = [dt]`,
with the `__post_init__` defaults (model.py:146-153) for the rest.
`tn` is first assigned in `forward_time_step` before any read; `u0` is
the initial condition loaded into both solution slots. -/
def init_state (p : ℕ) (initial_dt final_t : ℚ) (adj : List (ℚ × ℚ))
    (u0 : List ℚ) : ModelState :=
  { p := p
    t := quantize p 0
    tn := quantize p 0
    dt := quantize p initial_dt
    final_t := quantize p final_t
    idx := 0
    tvec := [quantize p 0]
    dtvec := [quantize p initial_dt]
    idx_nl := []
    idx_l := []
    adjust_dt := adj
    reset_dt := false
    failed_to_converge := false
    u := u0
    un := u0
    failed_solves := [] }

/-- A compartment as `_init_4_1_get_active_compartments` sees it:
declaration name, number of species (zero species means the compartment
owns no unknowns) and the mutable block index `dof_index`. -/
structure Compartment where
  name : String
  num_species : ℕ
  dof_index : ℕ
  deriving Repr, DecidableEq

/-- The first loop of `_init_4_1_get_active_compartments`
(model.py:779-784): collect the positions of zero-species compartments,
in ascending order. -/
def collect_rm : List Compartment → ℕ → List ℕ
  | [], _ => []
  | c :: rest, i =>
    if c.num_species < 1 then i :: collect_rm rest (i + 1)
    else collect_rm rest (i + 1)

/-- Python `del xs[i]`. -/
def listDelete (xs : List Compartment) (i : ℕ) : List Compartment :=
  xs.take i ++ xs.drop (i + 1)

/-- The second loop of `_init_4_1_get_active_compartments`
(model.py:785-788), with the iteration counter
(`for i in range(len(rm_idx))`) made explicit as the first argument:
delete the collected positions, shifting the remaining indices down by
one after each deletion (`rm_idx = rm_idx - 1`). -/
def remove_loop_aux : ℕ → List Compartment → List ℕ → List Compartment
  | 0, active, _ => active
  | _ + 1, active, [] => active
  | n + 1, active, r :: rest =>
    remove_loop_aux n (listDelete active r) (rest.map (fun x => x - 1))

/-- The second loop of `_init_4_1_get_active_compartments`, iterating
`len(rm_idx)` times. -/
def remove_loop (active : List Compartment) (rm : List ℕ) : List Compartment :=
  remove_loop_aux rm.length active rm

/-- Embeds `Model._init_4_1_get_active_compartments` (model.py:772-790):
drop zero-species compartments from the candidate list and assign
consecutive `dof_index` values in the resulting order.  Despite its
docstring ("We want to have the highest number of dofs first") the
function performs no sorting, and it has no error path: an all-inactive
input yields the empty list. -/
def get_active_compartments (cs : List Compartment) : List Compartment :=
  (remove_loop cs (collect_rm cs 0)).enum.map
    (fun ic => { ic.2 with dof_index := ic.1 })

/-- A mesh as `get_mesh_by_id` sees it: its dolfin id and its name.
The argument list is `self.parent_mesh.all_meshes.values()` in
insertion order. -/
structure MeshRec where
  id : ℕ
  name : String
  deriving Repr, DecidableEq

/-- Embeds `Model.get_mesh_by_id` (model.py:2147-2153).  The `else: raise`
is attached to the `if` inside the `for` loop, so unless the FIRST mesh
of the registry matches, the function raises
`ValueError(f"No mesh with id {mesh_id}")`; an empty registry falls off
the loop and returns Python `None`. -/
def get_mesh_by_id (meshes : List MeshRec) (mesh_id : ℕ) :
    Except String (Option MeshRec) :=
  match meshes with
  | [] => .ok none
  | m :: _ =>
    if m.id = mesh_id then .ok (some m)
    else .error ("No mesh with id " ++ toString mesh_id)

/-- A UFL sub-form as the inner loop of `get_block_F` sees it: the id of
the mesh it integrates over and the result of `Fsub.empty()`. -/
structure SubFormRec where
  meshId : ℕ
  isEmptyForm : Bool
  deriving Repr, DecidableEq

/-- The inner loop of `get_block_F` (model.py:1390-1402): process the
sub-forms (`sub_forms_by_domain(Fi)`) of one non-empty block `Fi`.
An empty or missing sub-form takes the warning path, which evaluates
`self.get_mesh_by_id(Fsub.mesh().id()).name` just to build the log
message: a missing (Python `None`) sub-form therefore raises
`AttributeError`, and `get_mesh_by_id` itself may raise `ValueError`.
A surviving sub-form is kept as `some`; the warning path appends the
`none` placeholder. -/
def process_sub_forms (meshes : List MeshRec) :
    List (Option SubFormRec) → Except String (List (Option SubFormRec))
  | [] => .ok []
  | none :: _ => .error "AttributeError: NoneType object has no attribute mesh"
  | some f :: rest =>
    if f.isEmptyForm then
      match get_mesh_by_id meshes f.meshId with
      | .error e => .error e
      | .ok none => .error "AttributeError: NoneType object has no attribute name"
      | .ok (some _) => (process_sub_forms meshes rest).map (fun l => none :: l)
    else
      (process_sub_forms meshes rest).map (fun l => some f :: l)

/-- The outer loop of `get_block_F` (model.py:1381-1404) over the
already index-padded block list (`Ftemp`, model.py:1368-1375).
A block that is Python `None` or empty (`Fi.empty()`, modelled as having
no sub-forms) is logged and replaced by the `[None]` placeholder;
otherwise its sub-forms are processed. -/
def get_block_F (meshes : List MeshRec) :
    List (Option (List (Option SubFormRec))) →
    Except String (List (List (Option SubFormRec)))
  | [] => .ok []
  | none :: rest =>
    (get_block_F meshes rest).map (fun l => [none] :: l)
  | some subs :: rest =>
    if subs.isEmpty then (get_block_F meshes rest).map (fun l => [none] :: l)
    else
      match process_sub_forms meshes subs with
      | .error e => .error e
      | .ok fs => (get_block_F meshes rest).map (fun l => fs :: l)

/-- A Python float value that may be NaN (`none` is NaN; infinities do
not arise on the modelled paths). -/
abbrev PFloat := Option ℚ

/-- Float addition: NaN propagates. -/
def fadd : PFloat → PFloat → PFloat
  | some a, some b => some (a + b)
  | _, _ => none

/-- Float subtraction: NaN propagates. -/
def fsub : PFloat → PFloat → PFloat
  | some a, some b => some (a - b)
  | _, _ => none

/-- Float multiplication: NaN propagates. -/
def fmul : PFloat → PFloat → PFloat
  | some a, some b => some (a * b)
  | _, _ => none

/-- Float division: NaN propagates; division by zero is treated as NaN
(unreachable here since every call divides by `dt` and the driver has
already rejected `dt <= 0`, and tabulated time axes are strictly
increasing). -/
def fdiv : PFloat → PFloat → PFloat
  | some a, some b => if b = 0 then none else some (a / b)
  | _, _ => none

/-- Embeds `np.interp(x, xp, fp, left=np.nan, right=np.nan)` for a strictly
increasing time axis given as `(t, value)` rows (a sampled VALUE may
itself be NaN, e.g. read from a data file): NaN outside the sampled
range, piecewise-linear interpolation `fp[i] + (fp[i+1]-fp[i]) *
(x-xp[i]) / (xp[i+1]-xp[i])` inside, propagating NaN values. -/
def np_interp_nan (x : ℚ) : List (ℚ × PFloat) → PFloat
  | [] => none
  | [(x0, y0)] => if x < x0 ∨ x0 < x then none else y0
  | (x0, y0) :: (x1, y1) :: rest =>
    if x < x0 then none
    else if x ≤ x1 then
      fadd y0 (fdiv (fmul (fsub y1 y0) (some (x - x0))) (some (x1 - x0)))
    else np_interp_nan x ((x1, y1) :: rest)

/-- Embeds `model_assembly.ParameterType` as dispatched on by
`update_time_dependent_parameters`. -/
inductive ParameterType where
  | constant
  | expression
  | from_file
  | from_xdmf
  deriving Repr, DecidableEq

/-- A parameter as `update_time_dependent_parameters` sees it.
`sym_expr` models `parameter.sym_expr.subs({"t": v}).evalf()`;
`preint_sym_expr` the optional symbolic antiderivative; `quad` the
`scipy.integrate.quad` result over `[tn, t]` (an external numeric
collaborator); `sampling_data` / `preint_sampling_data` the tabulated
rows; `int_vec` the running cumulative integral;
`dolfin_expression_set` stands for the `d.Expression` assigned on the
space-dependent pre-integrated path. -/
structure TDParameter where
  name : String
  ptype : ParameterType
  is_time_dependent : Bool
  use_preintegration : Bool
  is_space_dependent : Bool
  sym_expr : ℚ → PFloat
  preint_sym_expr : Option (ℚ → PFloat)
  quad : ℚ → ℚ → PFloat
  sampling_data : List (ℚ × PFloat)
  preint_sampling_data : List (ℚ × PFloat)
  int_vec : List PFloat
  value : PFloat
  value_vector : List (ℚ × PFloat)
  dolfin_expression_set : Bool

/-- The ways the per-parameter update can raise. -/
inductive ParamUpdateError where
  | extrapolation
  | nanAssert
  | nothingAssigned
  | indexError
  deriving Repr, DecidableEq

/-- The per-parameter body of `Model.update_time_dependent_parameters`
(model.py:1859-1946), for `t = float(self.t)`, `tn = float(self.tn)`,
`dt = float(self.dt)`.  The `from_xdmf` branch updates the parameter's
field vector via `load_vector` (modelled separately) and `continue`s;
the direct-expression branch stores `sym_expr(t)` and `continue`s
WITHOUT reaching the final `assert not np.isnan(new_value)`;
the space-dependent pre-integrated expression branch assigns a
`d.Expression` and `continue`s likewise; only the branches that set
`new_value` flow into the NaN assertion and the store
(model.py:1939-1946). -/
def update_parameter (t tn dt : ℚ) (prm : TDParameter) :
    Except ParamUpdateError TDParameter :=
  if prm.ptype = .from_xdmf then .ok prm
  else if prm.is_time_dependent = false then .ok prm
  else if prm.use_preintegration = false ∧ prm.ptype = .expression then
    let v := prm.sym_expr t
    .ok { prm with value := v, value_vector := prm.value_vector ++ [(t, v)] }
  else
    let stage1 : Except ParamUpdateError (Option PFloat) :=
      if prm.use_preintegration = false ∧ prm.ptype = .from_file then
        match prm.sampling_data.head?, prm.sampling_data.getLast? with
        | some t0row, some tlrow =>
          if t < t0row.1 ∨ t > tlrow.1 then .error .extrapolation
          else .ok (some (np_interp_nan t prm.sampling_data))
        | _, _ => .error .indexError
      else .ok none
    match stage1 with
    | .error e => .error e
    | .ok nv0 =>
      let stage2 : Except ParamUpdateError (Option PFloat × TDParameter × Bool) :=
        if prm.use_preintegration then
          if prm.ptype = .expression then
            let ab : Except ParamUpdateError (PFloat × PFloat × TDParameter) :=
              match prm.preint_sym_expr with
              | none =>
                match prm.int_vec.getLast? with
                | some a =>
                  let b := fadd a (prm.quad tn t)
                  .ok (a, b, { prm with int_vec := prm.int_vec ++ [b] })
                | none => .error .indexError
              | some F => .ok (F tn, F t, prm)
            match ab with
            | .error e => .error e
            | .ok abp =>
              if abp.2.2.is_space_dependent then
                .ok (nv0, { abp.2.2 with dolfin_expression_set := true }, true)
              else
                .ok (some (fdiv (fsub abp.2.1 abp.1) (some dt)), abp.2.2, false)
          else if prm.ptype = .from_file then
            let a := np_interp_nan tn prm.preint_sampling_data
            let b := np_interp_nan t prm.preint_sampling_data
            .ok (some (fdiv (fsub b a) (some dt)), prm, false)
          else .ok (nv0, prm, false)
        else .ok (nv0, prm, false)
      match stage2 with
      | .error e => .error e
      | .ok (nv, prm2, skipStore) =>
        if skipStore then .ok prm2
        else
          match nv with
          | some v =>
            match v with
            | none => .error .nanAssert
            | some _ =>
              .ok { prm2 with
                value := v,
                value_vector := prm2.value_vector ++ [(t, v)] }
          | none => .error .nothingAssigned

/-- Embeds `np.isclose(a, b)` with the NumPy defaults `rtol=1e-5, atol=1e-8`:
`|a - b| <= atol + rtol * |b|`. -/
def np_isclose (a b : ℚ) : Bool :=
  |a - b| ≤ 1 / 100000000 + (1 / 100000) * |b|

/-- Elementwise `(vec1 + vec2) / 2`. -/
def vec_avg (v1 v2 : List ℚ) : List ℚ :=
  List.zipWith (fun a b => (a + b) / 2) v1 v2

/-- Embeds `Model.load_vector` (model.py:2268-2304): pick the stored vector(s)
for query time `t` against the file's time axis `tVec`; `vecs i` models
`cur_file.read(vec, f"VisualisationVector/{i}")`.  First branch: some
sample is `np.isclose` to `t`.  Then: `t` past the last sample (warning,
last vector), `t` before the first sample (warning, first vector), else
the unweighted average of the two neighbouring vectors.  `none` models
the `IndexError` Python raises on an empty time axis. -/
def load_vector (t : ℚ) (tVec : List ℚ) (vecs : ℕ → List ℚ) :
    Option (List ℚ) :=
  let close := (List.range tVec.length).filter
    (fun i => np_isclose (tVec.getD i 0) t)
  match close.head? with
  | some i => some (vecs i)
  | none =>
    match tVec.getLast?, tVec.head? with
    | some tl, some t0 =>
      if t > tl then some (vecs (tVec.length - 1))
      else if t < t0 then some (vecs 0)
      else
        let below := (List.range tVec.length).filter
          (fun i => tVec.getD i 0 < t)
        let above := (List.range tVec.length).filter
          (fun i => tVec.getD i 0 > t)
        match below.getLast?, above.head? with
        | some i1, some i2 => some (vec_avg (vecs i1) (vecs i2))
        | _, _ => none
    | _, _ => none

/-! ## Behavioural lemmas about the clock and the step controller -/

theorem set_dt_eq (s : ModelState) (x : ℚ) (h : isQuant s.p x) :
    set_dt s x = { s with dt := x } := by
  simp [set_dt, quantize_eq_self _ _ h, quantize_quantize]

theorem forward_time_step_eq (s : ModelState)
    (ht : isQuant s.p s.t) (hdt : isQuant s.p s.dt) :
    forward_time_step s =
      { s with
        tn := s.t,
        t := s.t + s.dt,
        tvec := s.tvec ++ [s.t + s.dt],
        dtvec := s.dtvec ++ [s.dt] } := by
  simp [forward_time_step, quantize_eq_self _ _ ht, quantize_eq_self _ _ hdt,
    quantize_add_eq ht hdt]

theorem adjust_prescribed_nil (s : ModelState) (h : s.adjust_dt = []) :
    adjust_dt_if_prescribed s = .ok s := by
  simp [adjust_dt_if_prescribed, h]

/-- Checkpoint branch 1 (model.py:1493-1503): the pending flag is set, or
the current time hits the checkpoint exactly — pop the checkpoint, set
`dt = dt_adjust` and clear the flag. -/
theorem adjust_prescribed_hit (s : ModelState) (ta da : ℚ)
    (rest : List (ℚ × ℚ)) (hq : s.adjust_dt = (ta, da) :: rest)
    (hqt : isQuant s.p s.t) (hqda : isQuant s.p da) (hqta : isQuant s.p ta)
    (hcond : s.reset_dt = true ∨ ta = s.t) :
    adjust_dt_if_prescribed s =
      .ok { s with dt := da, adjust_dt := rest, reset_dt := false } := by
  simp only [adjust_dt_if_prescribed, hq, quantize_eq_self _ _ hqt,
    quantize_eq_self _ _ hqda, quantize_eq_self _ _ hqta]
  rw [if_pos hcond, set_dt_eq _ _ hqda]

/-- Checkpoint branch 2 (model.py:1510-1542): a full step from `t` would
cross the checkpoint — set `dt = max(t_adjust - t, dt_adjust)`; pop the
checkpoint when `dt_adjust > t_adjust - t`, otherwise leave it queued and
set the pending flag. -/
theorem adjust_prescribed_cross (s : ModelState) (ta da : ℚ)
    (rest : List (ℚ × ℚ)) (hq : s.adjust_dt = (ta, da) :: rest)
    (hqt : isQuant s.p s.t) (hqdt : isQuant s.p s.dt)
    (hqta : isQuant s.p ta) (hqda : isQuant s.p da)
    (hrf : s.reset_dt = false) (hne : ta ≠ s.t)
    (hlt : s.t < ta) (hle : ta ≤ s.t + s.dt) :
    adjust_dt_if_prescribed s =
      if da > ta - s.t then
        .ok { s with
              dt := max (ta - s.t) da,
              adjust_dt := rest,
              reset_dt := false }
      else
        .ok { s with dt := max (ta - s.t) da, reset_dt := true } := by
  have hmax : isQuant s.p (max (ta - s.t) da) :=
    isQuant_max (isQuant_sub hqta hqt) hqda
  simp only [adjust_dt_if_prescribed, hq, quantize_eq_self _ _ hqt,
    quantize_eq_self _ _ hqdt, quantize_eq_self _ _ hqta,
    quantize_eq_self _ _ hqda, quantize_add_eq hqt hqdt,
    quantize_eq_self _ _ hmax, hrf]
  rw [if_neg, if_neg (not_lt.mpr hlt.le), if_pos ⟨hlt, hle⟩]
  · split <;> simp [set_dt_eq _ _ hmax, hq]
  · rintro (h | h)
    · exact Bool.false_ne_true h
    · exact hne h

/-- Checkpoint branch 3: the checkpoint is still further than one full
step away — no change. -/
theorem adjust_prescribed_far (s : ModelState) (ta da : ℚ)
    (rest : List (ℚ × ℚ)) (hq : s.adjust_dt = (ta, da) :: rest)
    (hqt : isQuant s.p s.t) (hqdt : isQuant s.p s.dt)
    (hqta : isQuant s.p ta)
    (hrf : s.reset_dt = false) (hne : ta ≠ s.t)
    (hlt : s.t < ta) (hgt : s.t + s.dt < ta) :
    adjust_dt_if_prescribed s = .ok s := by
  simp only [adjust_dt_if_prescribed, hq, quantize_eq_self _ _ hqt,
    quantize_eq_self _ _ hqdt, quantize_eq_self _ _ hqta,
    quantize_add_eq hqt hqdt, hrf]
  rw [if_neg, if_neg (not_lt.mpr hlt.le), if_neg]
  · rintro ⟨-, h⟩
    exact absurd h (not_le.mpr hgt)
  · rintro (h | h)
    · exact Bool.false_ne_true h
    · exact hne h

theorem adjust_tfinal_clip (s : ModelState)
    (hq : isQuant s.p (s.final_t - s.t)) (h : s.t + s.dt > s.final_t) :
    adjust_dt_if_pass_tfinal s = { s with dt := s.final_t - s.t } := by
  rw [adjust_dt_if_pass_tfinal, if_pos h, quantize_eq_self _ _ hq,
    set_dt_eq _ _ hq]

theorem adjust_tfinal_noop (s : ModelState) (h : ¬ s.t + s.dt > s.final_t) :
    adjust_dt_if_pass_tfinal s = s := by
  rw [adjust_dt_if_pass_tfinal, if_neg h]

/-! ## Claim theorems -/

/-- The concrete final-time-clipping scenario of the specification:
`final_t = 1.0`, `t = 0.97`, `dt = 0.1` at time precision 2. -/
def clipDemo : ModelState :=
  { p := 2, t := 97/100, tn := 0, dt := 1/10, final_t := 1, idx := 0,
    tvec := [0], dtvec := [1/10], idx_nl := [], idx_l := [],
    adjust_dt := [], reset_dt := false, failed_to_converge := false,
    u := [], un := [], failed_solves := [] }

/-- C8: with no prescribed checkpoint applicable, the proposed step size
is the current `dt` unless `t + dt` would exceed `final_t`, in which case
`dt` is set to `final_t - t` (at the configured time precision);
concretely, `final_t = 1.0, t = 0.97, dt = 0.1` is clipped to
`dt = 0.03`. -/
theorem claim_C8_final_time_clipping (s : ModelState)
    (hq : isQuant s.p (s.final_t - s.t)) :
    (s.t + s.dt > s.final_t →
      adjust_dt_if_pass_tfinal s = { s with dt := s.final_t - s.t }) ∧
    (¬ s.t + s.dt > s.final_t → adjust_dt_if_pass_tfinal s = s) ∧
    (adjust_dt_if_pass_tfinal clipDemo).dt = 3/100 := by
  refine ⟨fun h => adjust_tfinal_clip s hq h,
    fun h => adjust_tfinal_noop s h, ?_⟩
  have h := adjust_tfinal_clip clipDemo ⟨3, by norm_num [clipDemo]⟩
    (by norm_num [clipDemo])
  rw [h]
  norm_num [clipDemo]

theorem claim_C8_final_time_clipping_witness :
    (adjust_dt_if_pass_tfinal clipDemo).dt = 3/100 :=
  (claim_C8_final_time_clipping clipDemo ⟨3, by norm_num [clipDemo]⟩).2.2

/-- The concrete checkpoint scenario of the specification:
current `(t, dt) = (0.95, 0.1)` with one prescribed checkpoint
`(t_adjust, dt_adjust) = (1.0, 0.01)` at time precision 2. -/
def checkpointDemo : ModelState :=
  { p := 2, t := 95/100, tn := 0, dt := 1/10, final_t := 100, idx := 0,
    tvec := [0, 95/100], dtvec := [1/10, 1/10], idx_nl := [], idx_l := [],
    adjust_dt := [(1, 1/100)], reset_dt := false, failed_to_converge := false,
    u := [], un := [], failed_solves := [] }

/-- C1: with at least one remaining prescribed checkpoint
`(t_adjust, dt_adjust)`: if the pending flag is set or `t = t_adjust`
exactly, the checkpoint is popped and `dt := dt_adjust`; otherwise, if
`t < t_adjust <= t + dt`, then `dt := max (t_adjust - t) dt_adjust`,
popping the checkpoint when `dt_adjust > t_adjust - t` and otherwise
setting the pending flag.  Concretely, for the checkpoint
`(1.0, 0.01)` with `(t, dt) = (0.95, 0.1)`, this step gets `dt = 0.05`
and the step immediately after the crossing gets `dt = 0.01`. -/
theorem claim_C1_prescribed_checkpoints (s : ModelState) (ta da : ℚ)
    (rest : List (ℚ × ℚ)) (hq : s.adjust_dt = (ta, da) :: rest)
    (hqt : isQuant s.p s.t) (hqdt : isQuant s.p s.dt)
    (hqta : isQuant s.p ta) (hqda : isQuant s.p da) :
    ((s.reset_dt = true ∨ ta = s.t) →
      adjust_dt_if_prescribed s =
        .ok { s with dt := da, adjust_dt := rest, reset_dt := false }) ∧
    (s.reset_dt = false → ta ≠ s.t → s.t < ta → ta ≤ s.t + s.dt →
      adjust_dt_if_prescribed s =
        if da > ta - s.t then
          .ok { s with
                dt := max (ta - s.t) da,
                adjust_dt := rest,
                reset_dt := false }
        else
          .ok { s with dt := max (ta - s.t) da, reset_dt := true }) ∧
    ((adjust_dt_if_prescribed checkpointDemo).toOption.map
        (fun s1 => (s1.dt, s1.reset_dt,
          (forward_time_step s1).t,
          (adjust_dt_if_prescribed (forward_time_step s1)).toOption.map
            (fun s2 => (s2.dt, s2.adjust_dt))))
      = some (1/20, true, 1, some (1/100, []))) := by
  refine ⟨fun hcond => adjust_prescribed_hit s ta da rest hq hqt hqda hqta hcond,
    fun h1 h2 h3 h4 =>
      adjust_prescribed_cross s ta da rest hq hqt hqdt hqta hqda h1 h2 h3 h4,
    ?_⟩
  have e1 : adjust_dt_if_prescribed checkpointDemo =
      .ok { checkpointDemo with dt := 1/20, reset_dt := true } := by
    have h := adjust_prescribed_cross checkpointDemo 1 (1/100) []
      (by simp [checkpointDemo]) ⟨95, by norm_num [checkpointDemo]⟩
      ⟨10, by norm_num [checkpointDemo]⟩ ⟨100, by norm_num [checkpointDemo]⟩
      ⟨1, by norm_num [checkpointDemo]⟩ (by simp [checkpointDemo])
      (by norm_num [checkpointDemo]) (by norm_num [checkpointDemo])
      (by norm_num [checkpointDemo])
    rw [h, if_neg (by norm_num [checkpointDemo])]
    norm_num [checkpointDemo, max_def]
  have e2 : forward_time_step { checkpointDemo with dt := (1:ℚ)/20, reset_dt := true } =
      { checkpointDemo with
        dt := 1/20,
        reset_dt := true,
        tn := 95/100,
        t := 1,
        tvec := [0, 95/100, 1],
        dtvec := [1/10, 1/10, 1/20] } := by
    rw [forward_time_step_eq _ ⟨95, by norm_num [checkpointDemo]⟩
      ⟨5, by norm_num [checkpointDemo]⟩]
    norm_num [checkpointDemo]
  have e3 : adjust_dt_if_prescribed
      { checkpointDemo with
        dt := (1:ℚ)/20,
        reset_dt := true,
        tn := 95/100,
        t := 1,
        tvec := [0, 95/100, 1],
        dtvec := [1/10, 1/10, 1/20] } =
      .ok { checkpointDemo with
        dt := 1/100,
        reset_dt := false,
        tn := 95/100,
        t := 1,
        tvec := [0, 95/100, 1],
        dtvec := [1/10, 1/10, 1/20],
        adjust_dt := [] } := by
    have h := adjust_prescribed_hit
      { checkpointDemo with
        dt := (1:ℚ)/20,
        reset_dt := true,
        tn := 95/100,
        t := 1,
        tvec := [0, 95/100, 1],
        dtvec := [1/10, 1/10, 1/20] } 1 (1/100) []
      (by simp [checkpointDemo]) ⟨100, by norm_num [checkpointDemo]⟩
      ⟨1, by norm_num [checkpointDemo]⟩ ⟨100, by norm_num [checkpointDemo]⟩
      (Or.inl rfl)
    rw [h]
  rw [e1]
  simp only [Except.toOption, Option.map]
  rw [e2, e3]

theorem claim_C1_prescribed_checkpoints_witness :
    (adjust_dt_if_prescribed checkpointDemo).toOption.map
        (fun s1 => (s1.dt, s1.reset_dt,
          (forward_time_step s1).t,
          (adjust_dt_if_prescribed (forward_time_step s1)).toOption.map
            (fun s2 => (s2.dt, s2.adjust_dt))))
      = some (1/20, true, 1, some (1/100, [])) :=
  (claim_C1_prescribed_checkpoints checkpointDemo 1 (1/100) []
    (by simp [checkpointDemo]) ⟨95, by norm_num [checkpointDemo]⟩
    ⟨10, by norm_num [checkpointDemo]⟩ ⟨100, by norm_num [checkpointDemo]⟩
    ⟨1, by norm_num [checkpointDemo]⟩).2.2

/-- Effect of `reset_timestep` on a state whose history lists have just
been extended by a (failed) step: the last `(t, dt)` entry is popped, `t`
reverts to the previous history entry, `dt` becomes a (quantized) fifth
of the failed step's `dt`, the failure is recorded and the solution is
restored from the previous-step slot. -/
theorem reset_timestep_concat (s : ModelState) (tv dv : List ℚ)
    (a b tl : ℚ) (reason : ℤ)
    (htv : s.tvec = tv ++ [a]) (hdv : s.dtvec = dv ++ [b])
    (hnl : s.idx_nl ≠ []) (hil : s.idx_l ≠ [])
    (htvne : tv ≠ []) (hlast : tv.getLast? = some tl) :
    reset_timestep s reason =
      some { s with
        t := tl,
        dt := quantize s.p (quantize s.p (b * (1/5))),
        tvec := tv,
        dtvec := dv,
        idx := s.idx - 1,
        idx_nl := s.idx_nl.dropLast,
        idx_l := s.idx_l.dropLast,
        u := s.un,
        failed_solves := s.failed_solves ++
          [(s.idx, s.idx_nl.getLast hnl, s.idx_l.getLast hil, a, b, reason)] } := by
  have hlen : ¬ s.tvec.length < 2 := by
    rw [htv]
    simp only [List.length_append, List.length_cons, List.length_nil]
    have : 0 < tv.length := List.length_pos.mpr htvne
    omega
  have e1 : s.dtvec.getLast? = some b := by rw [hdv]; exact List.getLast?_concat dv
  have e4 : s.tvec.getLast? = some a := by rw [htv]; exact List.getLast?_concat tv
  have e2 : s.idx_nl.getLast? = some (s.idx_nl.getLast hnl) :=
    List.getLast?_eq_getLast s.idx_nl hnl
  have e3 : s.idx_l.getLast? = some (s.idx_l.getLast hil) :=
    List.getLast?_eq_getLast s.idx_l hil
  have egetD : s.tvec.getD (s.tvec.length - 2) 0 = tl := by
    rw [htv]
    simp only [List.length_append, List.length_cons, List.length_nil]
    rw [show tv.length + (0 + 1) - 2 = tv.length - 1 by omega]
    rw [List.getD_append tv [a] 0 (tv.length - 1)
      (by have : 0 < tv.length := List.length_pos.mpr htvne; omega)]
    have h' : tv[tv.length - 1]? = some tl := by
      rw [← List.getLast?_eq_getElem?, hlast]
    simp [List.getD, h']
  simp only [reset_timestep, if_neg hlen, e1, e2, e3, e4, egetD,
    set_time, set_dt, update_solution_from_n]
  rw [htv, hdv]
  simp [List.dropLast_concat]

/-- The concrete rollback scenario: at precision 2, one accepted step of
size `0.1` has brought the clock to `t = 0.1` with solution `[1/2]`;
the next step (also `dt = 0.1`) fails. -/
def rollbackDemo : ModelState :=
  { p := 2, t := 1/10, tn := 0, dt := 1/10, final_t := 100, idx := 1,
    tvec := [0, 1/10], dtvec := [1/10, 1/10], idx_nl := [2], idx_l := [5],
    adjust_dt := [], reset_dt := false, failed_to_converge := true,
    u := [1/2], un := [1/2], failed_solves := [] }

/-- The state of `rollbackDemo` right after the failed solve of the next
step: the clock was advanced by `forward_time_step` and the solver wrote
a junk iterate into `u` (together with its iteration counts). -/
def rollbackDemoFailed : ModelState :=
  { forward_time_step rollbackDemo with
    u := [-(5:ℚ)],
    idx_nl := (forward_time_step rollbackDemo).idx_nl ++ [3],
    idx_l := (forward_time_step rollbackDemo).idx_l ++ [7] }

/-- C2, counterexample: after the failed step is rolled back
(`forward_time_step` followed by `reset_timestep`), `t` and the solution
are restored exactly, but `dt` is NOT: it is `0.02 = 0.2 * 0.1` instead
of the pre-step `0.1`.  This refutes the claim that `t`, `dt` and the
solution fields all exactly equal their pre-step values. -/
theorem claim_C2_counterexample :
    (reset_timestep rollbackDemoFailed (-3)).map ModelState.t
        = some rollbackDemo.t ∧
    (reset_timestep rollbackDemoFailed (-3)).map ModelState.u
        = some rollbackDemo.u ∧
    (reset_timestep rollbackDemoFailed (-3)).map ModelState.dt
        = some (1/50) ∧
    rollbackDemo.dt = 1/10 ∧ ((1:ℚ)/50) ≠ 1/10 := by
  have hf : forward_time_step rollbackDemo =
      { rollbackDemo with
        tn := 1/10,
        t := 1/5,
        tvec := [0, 1/10, 1/5],
        dtvec := [1/10, 1/10, 1/10] } := by
    rw [forward_time_step_eq rollbackDemo ⟨10, by norm_num [rollbackDemo]⟩
      ⟨10, by norm_num [rollbackDemo]⟩]
    norm_num [rollbackDemo]
  have hp : rollbackDemoFailed.p = 2 := by
    simp only [rollbackDemoFailed]
    rw [hf]
    simp [rollbackDemo]
  have hun : rollbackDemoFailed.un = [1/2] := by
    simp only [rollbackDemoFailed]
    rw [hf]
    simp [rollbackDemo]
  have htv : rollbackDemoFailed.tvec = [0, 1/10] ++ [1/5] := by
    simp only [rollbackDemoFailed]
    rw [hf]
    simp [rollbackDemo]
  have hdv : rollbackDemoFailed.dtvec = [1/10, 1/10] ++ [1/10] := by
    simp only [rollbackDemoFailed]
    rw [hf]
    simp [rollbackDemo]
  have hnl : rollbackDemoFailed.idx_nl ≠ [] := by
    simp only [rollbackDemoFailed]
    rw [hf]
    simp [rollbackDemo]
  have hil : rollbackDemoFailed.idx_l ≠ [] := by
    simp only [rollbackDemoFailed]
    rw [hf]
    simp [rollbackDemo]
  have hr := reset_timestep_concat rollbackDemoFailed [0, 1/10] [1/10, 1/10]
    (1/5) (1/10) (1/10) (-3) htv hdv hnl hil (by simp) (by simp)
  rw [hr]
  have hquant : quantize rollbackDemoFailed.p
      (quantize rollbackDemoFailed.p ((1:ℚ)/10 * (1/5))) = 1/50 := by
    have h5 : isQuant rollbackDemoFailed.p ((1:ℚ)/50) := by
      rw [hp]
      exact ⟨2, by norm_num⟩
    rw [show (1:ℚ)/10 * (1/5) = 1/50 by norm_num,
      quantize_eq_self _ _ h5, quantize_eq_self _ _ h5]
  refine ⟨?_, ?_, ?_, by norm_num [rollbackDemo], by norm_num⟩
  · simp [rollbackDemo]
  · simp [hun, rollbackDemo]
  · simpa using hquant

/-- C2 (amended): after a failed step is rolled back
(`forward_time_step`, the solver writing its iterate, then
`reset_timestep`), the time `t`, the history lists and the solution
field `u` are restored exactly to their values before the failed step
began (`u` from the previous-step slot `n`), while `dt` becomes the
quantized value of `0.2` times the failed step's `dt`. -/
theorem claim_C2_rollback (s : ModelState) (unew : List ℚ) (nl ll : ℕ)
    (reason : ℤ)
    (ht : isQuant s.p s.t) (hdt : isQuant s.p s.dt)
    (htvne : s.tvec ≠ []) (hlastt : s.tvec.getLast? = some s.t) :
    (reset_timestep
        { forward_time_step s with
          u := unew,
          idx_nl := (forward_time_step s).idx_nl ++ [nl],
          idx_l := (forward_time_step s).idx_l ++ [ll] } reason).map
      (fun r => (r.t, r.u, r.tvec, r.dtvec, r.idx_nl, r.idx_l, r.dt))
      = some (s.t, s.un, s.tvec, s.dtvec, s.idx_nl, s.idx_l,
          quantize s.p (quantize s.p (s.dt * (1/5)))) := by
  have hf := forward_time_step_eq s ht hdt
  have hr := reset_timestep_concat
    { forward_time_step s with
      u := unew,
      idx_nl := (forward_time_step s).idx_nl ++ [nl],
      idx_l := (forward_time_step s).idx_l ++ [ll] }
    s.tvec s.dtvec (s.t + s.dt) s.dt s.t reason
    (by simp [hf]) (by simp [hf]) (by simp) (by simp) htvne hlastt
  rw [hr]
  simp [hf]

theorem claim_C2_rollback_witness :
    (reset_timestep rollbackDemoFailed (-3)).map
      (fun r => (r.t, r.u, r.tvec, r.dtvec, r.idx_nl, r.idx_l, r.dt))
      = some (rollbackDemo.t, rollbackDemo.un, rollbackDemo.tvec,
          rollbackDemo.dtvec, rollbackDemo.idx_nl, rollbackDemo.idx_l,
          quantize rollbackDemo.p (quantize rollbackDemo.p
            (rollbackDemo.dt * (1/5)))) := by
  have h := claim_C2_rollback rollbackDemo [-(5:ℚ)] 3 7 (-3)
    (by exact ⟨10, by norm_num [rollbackDemo]⟩)
    (by exact ⟨10, by norm_num [rollbackDemo]⟩)
    (by simp [rollbackDemo]) (by simp [rollbackDemo])
  calc (reset_timestep rollbackDemoFailed (-3)).map
        (fun r => (r.t, r.u, r.tvec, r.dtvec, r.idx_nl, r.idx_l, r.dt))
      = (reset_timestep
          { forward_time_step rollbackDemo with
            u := [-(5:ℚ)],
            idx_nl := (forward_time_step rollbackDemo).idx_nl ++ [3],
            idx_l := (forward_time_step rollbackDemo).idx_l ++ [7] } (-3)).map
          (fun r => (r.t, r.u, r.tvec, r.dtvec, r.idx_nl, r.idx_l, r.dt)) := rfl
    _ = some (rollbackDemo.t, rollbackDemo.un, rollbackDemo.tvec,
          rollbackDemo.dtvec, rollbackDemo.idx_nl, rollbackDemo.idx_l,
          quantize rollbackDemo.p (quantize rollbackDemo.p
            (rollbackDemo.dt * (1/5)))) := h

/-- Lemma: `reset_timestep` succeeds (and restores the previous solution) on
any state with enough history. -/
theorem reset_timestep_isSome (s : ModelState) (reason : ℤ)
    (hlen : 2 ≤ s.tvec.length) (hd : s.dtvec ≠ [])
    (hnl : s.idx_nl ≠ []) (hil : s.idx_l ≠ []) :
    ∃ r, reset_timestep s reason = some r ∧ r.u = s.un ∧ r.un = s.un := by
  have e1 : s.dtvec.getLast? = some (s.dtvec.getLast hd) :=
    List.getLast?_eq_getLast _ hd
  have e2 : s.idx_nl.getLast? = some (s.idx_nl.getLast hnl) :=
    List.getLast?_eq_getLast _ hnl
  have e3 : s.idx_l.getLast? = some (s.idx_l.getLast hil) :=
    List.getLast?_eq_getLast _ hil
  have e4 : s.tvec.getLast? = some (s.tvec.getLast (by
      intro h
      rw [h] at hlen
      simp at hlen)) :=
    List.getLast?_eq_getLast _ _
  unfold reset_timestep
  rw [if_neg (by omega : ¬ s.tvec.length < 2), e1, e2, e3, e4]
  exact ⟨_, rfl, rfl, rfl⟩

/-- C4: for a converged solve with the negative-solution check
configured (`reset_timestep_for_negative_solution`): a solution
component more negative than the tolerance `-1e-6` makes the step a
solve failure — the engine rolls back (restoring the previous solution)
and retries with a smaller step — while a solution whose negative
components are all within tolerance is clamped to zero and the step is
accepted.  The numeric conjuncts pin the claim's examples: `-1e-8` is
within tolerance and clamps to `0`; `-1e-3` is over tolerance. -/
theorem claim_C4_negative_solution_policy (cfg : SolverConfig)
    (out : SolveOutcome) (s : ModelState)
    (hcfg : cfg.reset_timestep_for_negative_solution = true)
    (hconv : out.converged = true)
    (hflag : s.failed_to_converge = true)
    (hdt : 0 < s.dt)
    (htvne : s.tvec ≠ []) :
    (out.u.any (fun x => x < -(1/1000000)) = true →
      ∃ r, monolithic_attempt cfg out s = .retry r ∧ r.u = s.un) ∧
    (out.u.any (fun x => x < -(1/1000000)) = false →
      ∃ s2, monolithic_attempt cfg out s = .accepted s2 ∧
        s2.u = clampNeg out.u ∧ s2.un = clampNeg out.u) ∧
    clampNeg [-(1/100000000)] = [0] ∧
    ([-(1/1000)] : List ℚ).any (fun x => x < -(1/1000000)) = true ∧
    ([-(1/100000000)] : List ℚ).any (fun x => x < -(1/1000000)) = false := by
  refine ⟨?_, ?_, by norm_num [clampNeg], by norm_num, by norm_num⟩
  · intro hneg
    simp only [monolithic_attempt, monolithic_attempt_solve, hflag, hcfg, hneg,
      and_self, if_true]
    rw [if_neg (not_le.mpr hdt)]
    set si : ModelState := { s with idx := s.idx + 1, failed_to_converge := true }
      with hsi
    set ss : ModelState :=
      { forward_time_step si with
        u := out.u,
        idx_nl := (forward_time_step si).idx_nl ++ [out.nl_its],
        idx_l := (forward_time_step si).idx_l ++ [out.l_its] } with hss
    have hun : ss.un = s.un := by
      rw [hss, hsi]
      simp [forward_time_step]
    have hlen : 2 ≤ ss.tvec.length := by
      rw [hss, hsi]
      simp only [forward_time_step, List.length_append, List.length_cons,
        List.length_nil]
      have : 0 < s.tvec.length := List.length_pos.mpr htvne
      omega
    have hdvne : ss.dtvec ≠ [] := by
      rw [hss, hsi]
      simp [forward_time_step]
    have hnlne : ss.idx_nl ≠ [] := by
      rw [hss]
      simp
    have hilne : ss.idx_l ≠ [] := by
      rw [hss]
      simp
    obtain ⟨r, hr, hru, -⟩ := reset_timestep_isSome ss out.reason hlen hdvne hnlne hilne
    rw [hr]
    exact ⟨_, rfl, hru.trans hun⟩
  · intro hneg
    simp only [monolithic_attempt, monolithic_attempt_solve, hflag, hcfg, hneg,
      hconv, if_true, Bool.false_eq_true, and_false, if_false, Bool.true_eq_false]
    rw [if_neg (not_le.mpr hdt)]
    exact ⟨_, rfl, rfl, rfl⟩

/-- The concrete negative-solution scenario: a mid-run state (one
accepted step of history) whose next converged solve returns a negative
component. -/
def negDemo : ModelState :=
  { p := 2, t := 1/10, tn := 0, dt := 1/10, final_t := 100, idx := 1,
    tvec := [0, 1/10], dtvec := [1/10, 1/10], idx_nl := [2], idx_l := [5],
    adjust_dt := [], reset_dt := false, failed_to_converge := true,
    u := [1/2], un := [1/2], failed_solves := [] }

/-- A converged solve whose solution has a component at `-1e-3`. -/
def outNeg3 : SolveOutcome :=
  { u := [-(1/1000)], converged := true, nl_its := 3, l_its := 7, reason := 2 }

/-- A converged solve whose solution has a component at `-1e-8`. -/
def outNeg8 : SolveOutcome :=
  { u := [-(1/100000000)], converged := true, nl_its := 3, l_its := 7,
    reason := 2 }

/-- Solver policy with the negative-solution check configured. -/
def cfgNeg : SolverConfig :=
  { reset_timestep_for_negative_solution := true,
    attempt_timestep_restart_on_divergence := true }

theorem claim_C4_negative_solution_policy_witness :
    (∃ r, monolithic_attempt cfgNeg outNeg3 negDemo = .retry r ∧
      r.u = negDemo.un) ∧
    (∃ s2, monolithic_attempt cfgNeg outNeg8 negDemo = .accepted s2 ∧
      s2.u = clampNeg outNeg8.u ∧ s2.un = clampNeg outNeg8.u) := by
  have h3 := claim_C4_negative_solution_policy cfgNeg outNeg3 negDemo rfl rfl
    rfl (by norm_num [negDemo]) (by simp [negDemo])
  have h8 := claim_C4_negative_solution_policy cfgNeg outNeg8 negDemo rfl rfl
    rfl (by norm_num [negDemo]) (by simp [negDemo])
  exact ⟨h3.1 (by norm_num [outNeg3]), h8.2.1 (by norm_num [outNeg8])⟩

/-- The clock invariant maintained by the stepping engine: quantized
`t` and `dt`, a non-empty history ending at the current time, `t` equal
to the sum of all accepted step sizes (the run starts at `t = 0`, and
`dtvec[0]` is the configured initial `dt`, not an accepted step),
strictly increasing accepted times, and positive quantized accepted
step sizes. -/
def clockInv (s : ModelState) : Prop :=
  isQuant s.p s.t ∧ isQuant s.p s.dt ∧
  s.tvec ≠ [] ∧
  s.tvec.getLast? = some s.t ∧
  s.t = (s.dtvec.drop 1).sum ∧
  s.tvec.length = s.dtvec.length ∧
  List.Chain' (· < ·) s.tvec ∧
  (∀ d ∈ s.dtvec.drop 1, 0 < d ∧ isQuant s.p d)

/-- Any `.ok` result of `adjust_dt_if_prescribed` only rewrites `dt`
(to a quantized value), the checkpoint queue and the pending flag. -/
theorem adjust_prescribed_ok_cases (s s' : ModelState)
    (h : adjust_dt_if_prescribed s = .ok s') :
    ∃ d q r, s' = { s with dt := d, adjust_dt := q, reset_dt := r } ∧
      (d = s.dt ∨ isQuant s.p d) := by
  unfold adjust_dt_if_prescribed at h
  split at h
  · cases h
    exact ⟨s.dt, s.adjust_dt, s.reset_dt, rfl, Or.inl rfl⟩
  · dsimp only at h
    split at h
    · cases h
      exact ⟨_, _, _, rfl, Or.inr (isQuant_quantize _ _)⟩
    · split at h
      · cases h
      · split at h
        · split at h
          · cases h
            exact ⟨_, _, _, rfl, Or.inr (isQuant_quantize _ _)⟩
          · cases h
            exact ⟨_, _, _, rfl, Or.inr (isQuant_quantize _ _)⟩
        · cases h
          exact ⟨s.dt, s.adjust_dt, s.reset_dt, rfl, Or.inl rfl⟩

/-- Fact: `clockInv` only depends on the five clock fields. -/
theorem clockInv_of_fields (a b : ModelState)
    (hp : a.p = b.p) (ht : a.t = b.t) (hdt : a.dt = b.dt)
    (htv : a.tvec = b.tvec) (hdv : a.dtvec = b.dtvec)
    (h : clockInv b) : clockInv a := by
  unfold clockInv at *
  rw [hp, ht, hdt, htv, hdv]
  exact h

theorem clockInv_set_dt_quant (s : ModelState) (hI : clockInv s) (d : ℚ)
    (hq : isQuant s.p d) : clockInv { s with dt := d } := by
  obtain ⟨hqt, -, htvne, hlast, hsum, hlen, hchain, hdts⟩ := hI
  exact ⟨hqt, hq, htvne, hlast, hsum, hlen, hchain, hdts⟩

theorem chain_lt_concat (l : List ℚ) (x a : ℚ)
    (h : List.Chain' (· < ·) l) (hl : l.getLast? = some x) (hx : x < a) :
    List.Chain' (· < ·) (l ++ [a]) := by
  rw [List.chain'_append]
  refine ⟨h, List.chain'_singleton a, ?_⟩
  intro y hy z hz
  rw [hl] at hy
  simp only [Option.mem_def, Option.some.injEq] at hy
  simp only [List.head?_cons, Option.mem_def, Option.some.injEq] at hz
  subst hy
  subst hz
  exact hx

/-- Lemma: `forward_time_step` preserves the clock invariant when the current
`dt` is positive. -/
theorem clockInv_forward_time_step (s : ModelState) (hI : clockInv s)
    (hdt : 0 < s.dt) : clockInv (forward_time_step s) := by
  obtain ⟨hqt, hqdt, htvne, hlast, hsum, hlen, hchain, hdts⟩ := hI
  rw [forward_time_step_eq s hqt hqdt]
  have hdvlen : 1 ≤ s.dtvec.length := by
    have := List.length_pos.mpr htvne
    omega
  refine ⟨isQuant_add hqt hqdt, hqdt, by simp, ?_, ?_, ?_, ?_, ?_⟩
  · simp [List.getLast?_concat]
  · show s.t + s.dt = ((s.dtvec ++ [s.dt]).drop 1).sum
    rw [List.drop_append_of_le_length hdvlen, List.sum_append]
    simp [hsum]
  · simp [hlen]
  · exact chain_lt_concat s.tvec s.t (s.t + s.dt) hchain hlast (by linarith)
  · intro d hd
    rw [List.drop_append_of_le_length hdvlen, List.mem_append] at hd
    rcases hd with hd | hd
    · exact hdts d hd
    · simp only [List.mem_singleton] at hd
      subst hd
      exact ⟨hdt, hqdt⟩

/-- Field effect of any successful `reset_timestep`. -/
theorem reset_timestep_fields (s r : ModelState) (reason : ℤ)
    (h : reset_timestep s reason = some r) :
    r.p = s.p ∧ r.t = s.tvec.getD (s.tvec.length - 2) 0 ∧
    isQuant s.p r.dt ∧ r.tvec = s.tvec.dropLast ∧
    r.dtvec = s.dtvec.dropLast := by
  unfold reset_timestep at h
  split at h
  · cases h
  · split at h
    · cases h
      exact ⟨rfl, rfl, isQuant_quantize _ _, rfl, rfl⟩
    · cases h

/-- The second-to-last entry of `l ++ [a]` is the last of `l`. -/
theorem getD_concat_penult (l : List ℚ) (a x : ℚ) (hne : l ≠ [])
    (hlast : l.getLast? = some x) :
    (l ++ [a]).getD ((l ++ [a]).length - 2) 0 = x := by
  simp only [List.length_append, List.length_cons, List.length_nil]
  rw [show l.length + (0 + 1) - 2 = l.length - 1 by omega]
  rw [List.getD_append l [a] 0 (l.length - 1)
    (by have := List.length_pos.mpr hne; omega)]
  have h' : l[l.length - 1]? = some x := by
    rw [← List.getLast?_eq_getElem?, hlast]
  simp [List.getD, h']

/-- Outcome predicate: the resulting state of an accepted or retried
step satisfies the clock invariant. -/
def stepOK (res : StepResult) : Prop :=
  match res with
  | .accepted s' => clockInv s'
  | .retry s' => clockInv s'
  | .fatal _ => True

/-- The post-adjustment part of an attempt preserves the clock
invariant on every non-fatal outcome. -/
theorem monolithic_attempt_solve_clockInv (cfg : SolverConfig)
    (out : SolveOutcome) (s2 : ModelState) (hI2 : clockInv s2) :
    stepOK (monolithic_attempt_solve cfg out s2) := by
  obtain ⟨hqt2, hqdt2, htvne2, hlast2, hsum2, hlen2, hchain2, hdts2⟩ := hI2
  have hI2' : clockInv s2 :=
    ⟨hqt2, hqdt2, htvne2, hlast2, hsum2, hlen2, hchain2, hdts2⟩
  have hforward := forward_time_step_eq s2 hqt2 hqdt2
  unfold monolithic_attempt_solve
  dsimp only
  split
  · trivial
  next hdtpos =>
    have hIf : clockInv (forward_time_step s2) :=
      clockInv_forward_time_step s2 hI2' (not_le.mp hdtpos)
    repeat' split
    all_goals
      first
        | trivial
        | (refine clockInv_of_fields _ (forward_time_step s2) ?_ ?_ ?_ ?_ ?_ hIf
           all_goals rfl)
        | (rename_i r heq2
           obtain ⟨hrp, hrt, hrdt, hrtv, hrdv⟩ :=
             reset_timestep_fields _ r out.reason heq2
           have hp' : r.p = s2.p := by
             refine hrp.trans ?_
             try split
             all_goals rfl
           have hq' : isQuant s2.p r.dt := (hrp.symm.trans hp') ▸ hrdt
           have h1 : r.tvec = s2.tvec := by
             refine hrtv.trans ?_
             try split
             all_goals
               show (forward_time_step s2).tvec.dropLast = s2.tvec
               rw [hforward]
               exact List.dropLast_concat
           have h3 : r.dtvec = s2.dtvec := by
             refine hrdv.trans ?_
             try split
             all_goals
               show (forward_time_step s2).dtvec.dropLast = s2.dtvec
               rw [hforward]
               exact List.dropLast_concat
           have h2 : r.t = s2.t := by
             refine hrt.trans ?_
             try split
             all_goals
               show (forward_time_step s2).tvec.getD
                 ((forward_time_step s2).tvec.length - 2) 0 = s2.t
               rw [hforward]
               exact getD_concat_penult s2.tvec (s2.t + s2.dt) s2.t htvne2
                 hlast2
           refine clockInv_of_fields _ { s2 with dt := r.dt } hp' h2 rfl h1
             h3 ?_
           exact clockInv_set_dt_quant s2 hI2' r.dt hq')

/-- One attempt of `monolithic_solve` preserves the clock invariant on
both its accepted and its rolled-back (retry) outcome. -/
theorem monolithic_attempt_clockInv (cfg : SolverConfig)
    (out : SolveOutcome) (s : ModelState) (hI : clockInv s) :
    stepOK (monolithic_attempt cfg out s) := by
  unfold monolithic_attempt
  dsimp only
  split
  · trivial
  next s2 heq =>
    have hfields : s2.p = s.p ∧ s2.t = s.t ∧ s2.tvec = s.tvec ∧
        s2.dtvec = s.dtvec ∧ (s2.dt = s.dt ∨ isQuant s.p s2.dt) := by
      split at heq
      · cases heq
        exact ⟨rfl, rfl, rfl, rfl, Or.inl rfl⟩
      · cases hadj : adjust_dt_if_prescribed _ with
        | error e =>
          rw [hadj] at heq
          simp only [Except.map] at heq
          exact Except.noConfusion heq
        | ok smid =>
          rw [hadj] at heq
          simp only [Except.map] at heq
          cases heq
          obtain ⟨d, q, r, hmid, hd⟩ := adjust_prescribed_ok_cases _ smid hadj
          subst hmid
          unfold adjust_dt_if_pass_tfinal
          split
          · exact ⟨rfl, rfl, rfl, rfl, Or.inr (isQuant_quantize _ _)⟩
          · rcases hd with hd | hd
            · exact ⟨rfl, rfl, rfl, rfl, Or.inl hd⟩
            · exact ⟨rfl, rfl, rfl, rfl, Or.inr hd⟩
    obtain ⟨hp2, ht2, htv2, hdv2, hdt2⟩ := hfields
    have hI2 : clockInv s2 := by
      rcases hdt2 with hdt2 | hdt2
      · exact clockInv_of_fields s2 s hp2 ht2 hdt2 htv2 hdv2 hI
      · refine clockInv_of_fields s2 { s with dt := s2.dt } hp2 ht2 rfl htv2
          hdv2 ?_
        exact clockInv_set_dt_quant s hI s2.dt hdt2
    exact monolithic_attempt_solve_clockInv cfg out s2 hI2

/-- The retry recursion of `monolithic_solve` preserves the clock
invariant. -/
theorem monolithic_solve_clockInv (cfg : SolverConfig)
    (oracle : ℕ → SolveOutcome) (fuel : ℕ) :
    ∀ (k : ℕ) (s s' : ModelState), clockInv s →
      monolithic_solve cfg oracle fuel k s = .ok s' → clockInv s' := by
  induction fuel with
  | zero =>
    intro k s s' _ h
    exact Except.noConfusion h
  | succ fuel ih =>
    intro k s s' hI h
    unfold monolithic_solve at h
    have hstep := monolithic_attempt_clockInv cfg (oracle k) s hI
    cases hres : monolithic_attempt cfg (oracle k) s with
    | accepted s1 =>
      rw [hres] at h hstep
      cases h
      exact hstep
    | fatal e =>
      rw [hres] at h
      exact Except.noConfusion h
    | retry s1 =>
      rw [hres] at h hstep
      exact ih (k + 1) s1 s' hstep h

/-- A multi-step run preserves the clock invariant. -/
theorem run_steps_clockInv (cfg : SolverConfig)
    (oracle : ℕ → ℕ → SolveOutcome) (fuel : ℕ) :
    ∀ (n : ℕ) (s s' : ModelState), clockInv s →
      run_steps cfg oracle fuel n s = .ok s' → clockInv s' := by
  intro n
  induction n with
  | zero =>
    intro s s' hI h
    unfold run_steps at h
    cases h
    exact hI
  | succ n ih =>
    intro s s' hI h
    unfold run_steps at h
    cases hm : monolithic_solve cfg (oracle n) fuel 0 s with
    | ok s1 =>
      rw [hm] at h
      exact ih s1 s' (monolithic_solve_clockInv cfg (oracle n) fuel 0 s s1 hI hm) h
    | error e =>
      rw [hm] at h
      exact Except.noConfusion h

/-- The state `Model.initialize` sets up satisfies the clock invariant. -/
theorem clockInv_init (p : ℕ) (initial_dt final_t : ℚ)
    (adj : List (ℚ × ℚ)) (u0 : List ℚ) :
    clockInv (init_state p initial_dt final_t adj u0) := by
  have h0 : quantize p 0 = 0 := quantize_eq_self p 0 ⟨0, by simp⟩
  unfold clockInv init_state
  refine ⟨isQuant_quantize _ _, isQuant_quantize _ _, by simp, by simp, ?_,
    by simp, ?_, by simp⟩
  · simp [h0]
  · simp [List.chain'_singleton]

/-- C6: starting from time zero, along every successful run `t` strictly
increases across accepted steps (the accepted-time history is a strictly
increasing chain), `t` equals the sum of all accepted `dt` values, every
accepted `dt` is positive, and a step whose (adjusted) `dt` is `<= 0` is
rejected with an error before solving. -/
theorem claim_C6_monotonic_clock (cfg : SolverConfig)
    (oracle : ℕ → ℕ → SolveOutcome) (fuel n : ℕ) (p : ℕ)
    (initial_dt final_t : ℚ) (adj : List (ℚ × ℚ)) (u0 : List ℚ)
    (s : ModelState)
    (hrun : run_steps cfg oracle fuel n
      (init_state p initial_dt final_t adj u0) = .ok s) :
    List.Chain' (· < ·) s.tvec ∧
    s.t = (s.dtvec.drop 1).sum ∧
    (∀ d ∈ s.dtvec.drop 1, 0 < d) ∧
    (∀ (cfg' : SolverConfig) (out : SolveOutcome) (s0 : ModelState),
      s0.dt ≤ 0 →
        monolithic_attempt_solve cfg' out s0 = .fatal "dt is <= 0") := by
  obtain ⟨-, -, -, -, hsum, -, hchain, hdts⟩ :=
    run_steps_clockInv cfg oracle fuel n _ s
      (clockInv_init p initial_dt final_t adj u0) hrun
  refine ⟨hchain, hsum, fun d hd => (hdts d hd).1, ?_⟩
  intro cfg' out s0 h0
  unfold monolithic_attempt_solve
  rw [if_pos h0]

/-- Solver policy with no negative-solution check and restart enabled. -/
def cfgPlain : SolverConfig :=
  { reset_timestep_for_negative_solution := false,
    attempt_timestep_restart_on_divergence := true }

/-- A plainly converged solve outcome. -/
def outPlain : SolveOutcome :=
  { u := [1], converged := true, nl_its := 1, l_its := 1, reason := 2 }

/-- The quantized initial state at precision 2, `dt = 0.1`,
`final_t = 100`, one unknown at value `1`. -/
def stepDemoInit : ModelState :=
  { p := 2, t := 0, tn := 0, dt := 1/10, final_t := 100, idx := 0,
    tvec := [0], dtvec := [1/10], idx_nl := [], idx_l := [],
    adjust_dt := [], reset_dt := false, failed_to_converge := false,
    u := [1], un := [1], failed_solves := [] }

/-- The state after one accepted step from `stepDemoInit`. -/
def stepDemoDone : ModelState :=
  { p := 2, t := 1/10, tn := 0, dt := 1/10, final_t := 100, idx := 1,
    tvec := [0, 1/10], dtvec := [1/10, 1/10], idx_nl := [1], idx_l := [1],
    adjust_dt := [], reset_dt := false, failed_to_converge := false,
    u := [1], un := [1], failed_solves := [] }

theorem stepDemo_attempt :
    monolithic_attempt cfgPlain outPlain stepDemoInit =
      .accepted stepDemoDone := by
  have hq0 : isQuant 2 (0:ℚ) := ⟨0, by norm_num⟩
  have hq10 : isQuant 2 ((1:ℚ)/10) := ⟨10, by norm_num⟩
  unfold monolithic_attempt
  dsimp only
  rw [if_neg (by simp [stepDemoInit])]
  rw [adjust_prescribed_nil _ (by simp [stepDemoInit])]
  simp only [Except.map]
  rw [adjust_tfinal_noop _ (by norm_num [stepDemoInit])]
  unfold monolithic_attempt_solve
  dsimp only
  rw [if_neg (by norm_num [stepDemoInit])]
  rw [forward_time_step_eq _ (by exact hq0) (by exact hq10)]
  rw [if_neg (by decide)]
  rw [if_neg (by decide)]
  rw [if_neg (by decide)]
  norm_num [stepDemoInit, stepDemoDone, update_solution_to_n, outPlain]

theorem claim_C6_monotonic_clock_witness :
    run_steps cfgPlain (fun _ _ => outPlain) 1 1
        (init_state 2 (1/10) 100 [] [1]) = .ok stepDemoDone ∧
    List.Chain' (· < ·) stepDemoDone.tvec ∧
    stepDemoDone.t = (stepDemoDone.dtvec.drop 1).sum ∧
    (∀ d ∈ stepDemoDone.dtvec.drop 1, 0 < d) := by
  have hinit : init_state 2 (1/10) 100 [] [1] = stepDemoInit := by
    have h0 : quantize 2 (0:ℚ) = 0 := quantize_eq_self 2 0 ⟨0, by norm_num⟩
    have h10 : quantize 2 ((1:ℚ)/10) = 1/10 :=
      quantize_eq_self 2 _ ⟨10, by norm_num⟩
    have h100 : quantize 2 (100:ℚ) = 100 :=
      quantize_eq_self 2 _ ⟨10000, by norm_num⟩
    unfold init_state stepDemoInit
    rw [h0, h10, h100]
  have hrun : run_steps cfgPlain (fun _ _ => outPlain) 1 1
      (init_state 2 (1/10) 100 [] [1]) = .ok stepDemoDone := by
    unfold run_steps
    rw [hinit]
    unfold monolithic_solve
    rw [stepDemo_attempt]
    unfold run_steps
    rfl
  have h := claim_C6_monotonic_clock cfgPlain (fun _ _ => outPlain) 1 1 2
    (1/10) 100 [] [1] stepDemoDone hrun
  exact ⟨hrun, h.1, h.2.1, h.2.2.1⟩

/-- C3, evaluation of the code at the failing input: with candidates
declared as `small` (1 species) before `big` (5 species) and an
inactive `empty` (0 species), `_init_4_1_get_active_compartments` drops
`empty` but keeps declaration order, assigning block index 0 to
`small` — not descending unknown count, as both the claim and the
function's own docstring ("We want to have the highest number of dofs
first") require. -/
theorem claim_C3_no_descending_sort :
    (get_active_compartments
        [⟨"small", 1, 0⟩, ⟨"big", 5, 0⟩, ⟨"empty", 0, 0⟩]).map
        (fun c => (c.name, c.num_species, c.dof_index))
      = [("small", 1, 0), ("big", 5, 1)] := by
  rfl

/-- C9, counterexample: activation with every candidate domain at zero
unknowns returns normally with the empty active list.  The source
function (model.py:772-790) has no error path at all, so no
`ConfigurationError` is raised, contradicting the claim. -/
theorem claim_C9_counterexample :
    get_active_compartments [⟨"A", 0, 0⟩, ⟨"B", 0, 0⟩] = [] := by
  rfl

theorem collect_rm_all (cs : List Compartment)
    (h : ∀ c ∈ cs, c.num_species = 0) :
    ∀ i, collect_rm cs i = List.range' i cs.length := by
  induction cs with
  | nil => intro i; rfl
  | cons c rest ih =>
    intro i
    unfold collect_rm
    rw [if_pos (by have := h c (by simp); omega)]
    rw [List.length_cons, List.range'_succ]
    rw [ih (fun x hx => h x (by simp [hx])) (i + 1)]

theorem map_sub_one_range' (i n : ℕ) :
    (List.range' (i + 1) n).map (fun x => x - 1) = List.range' i n := by
  induction n generalizing i with
  | zero => rfl
  | succ n ih =>
    rw [List.range'_succ, List.map_cons, List.range'_succ]
    rw [show i + 1 - 1 = i by omega, ih (i + 1)]

theorem remove_loop_all (cs : List Compartment) :
    remove_loop cs (List.range' 0 cs.length) = [] := by
  suffices h : ∀ (ds : List Compartment),
      remove_loop_aux ds.length ds (List.range' 0 ds.length) = [] by
    unfold remove_loop
    rw [List.length_range']
    exact h cs
  intro ds
  induction ds with
  | nil => rfl
  | cons c rest ih =>
    rw [List.length_cons, List.range'_succ]
    unfold remove_loop_aux
    rw [show listDelete (c :: rest) 0 = rest from rfl,
      map_sub_one_range' 0 rest.length]
    exact ih

/-- C9 (amended): for every candidate list in which every domain has
zero unknowns, activation proceeds and returns the empty active set;
no error of any kind is raised (the embedded function is total). -/
theorem claim_C9_empty_active_set (cs : List Compartment)
    (h : ∀ c ∈ cs, c.num_species = 0) :
    get_active_compartments cs = [] := by
  unfold get_active_compartments
  rw [collect_rm_all cs h 0, remove_loop_all]
  rfl

theorem claim_C9_empty_active_set_witness :
    get_active_compartments [⟨"A", 0, 0⟩, ⟨"B", 0, 0⟩, ⟨"C", 0, 0⟩] = [] :=
  claim_C9_empty_active_set _ (by intro c hc; fin_cases hc <;> rfl)

/-- C7, evaluation of the code at the failing input: an EMPTY sub-form
contribution integrating over a mesh that is not the first entry of the
mesh registry makes `get_block_F` raise `ValueError` instead of only
logging a warning, because `get_mesh_by_id` (model.py:2147-2153) has its
`else: raise` attached to the `if` INSIDE the `for` loop (it raises
unless the first mesh matches), and the warning path calls it just to
build the log message.  Block building therefore does not complete with
a placeholder; the claim that an empty contribution never raises is
contradicted by the code. -/
theorem claim_C7_empty_block_raises :
    process_sub_forms [⟨1, "cytosol"⟩, ⟨2, "pm"⟩] [some ⟨2, true⟩]
      = .error ("No mesh with id " ++ toString 2) ∧
    get_block_F [⟨1, "cytosol"⟩, ⟨2, "pm"⟩] [some [some ⟨2, true⟩]]
      = .error ("No mesh with id " ++ toString 2) ∧
    get_mesh_by_id [⟨1, "cytosol"⟩, ⟨2, "pm"⟩] 2
      = .error ("No mesh with id " ++ toString 2) := by
  refine ⟨rfl, rfl, rfl⟩

/-- A direct-expression time-dependent parameter whose expression
evaluates to NaN at every time. -/
def prmNaN : TDParameter :=
  { name := "k_nan", ptype := .expression, is_time_dependent := true,
    use_preintegration := false, is_space_dependent := false,
    sym_expr := fun _ => none, preint_sym_expr := none,
    quad := fun _ _ => none, sampling_data := [], preint_sampling_data := [],
    int_vec := [some 0], value := some 1, value_vector := [],
    dolfin_expression_set := false }

/-- C5, counterexample: a direct-expression (not pre-integrated)
time-dependent parameter whose expression evaluates to NaN is updated
WITHOUT any error: the NaN is silently stored as the parameter's value,
because the direct-expression branch (model.py:1879-1884) stores and
`continue`s before the `assert not np.isnan(new_value)` at
model.py:1940 is reached.  This contradicts the claim that every
computed value is asserted non-NaN on all update paths. -/
theorem claim_C5_counterexample :
    (update_parameter 1 0 1 prmNaN).toOption.map TDParameter.value
      = some none := rfl

/-- C5 (amended): only the update paths that set `new_value` reach the
`assert not np.isnan(new_value)` check.  The tabulated (not
pre-integrated) path and the two non-space-dependent pre-integrated
paths turn a NaN into a fatal assertion error, while the
direct-expression path stores the freshly evaluated expression value
with no NaN check at all. -/
theorem claim_C5_nan_check_coverage (t tn dt : ℚ) (prm : TDParameter)
    (htd : prm.is_time_dependent = true) :
    (prm.ptype = .expression → prm.use_preintegration = false →
      update_parameter t tn dt prm =
        .ok { prm with
          value := prm.sym_expr t,
          value_vector := prm.value_vector ++ [(t, prm.sym_expr t)] }) ∧
    (prm.ptype = .from_file → prm.use_preintegration = false →
      ∀ r0 rl, prm.sampling_data.head? = some r0 →
        prm.sampling_data.getLast? = some rl →
        ¬(t < r0.1 ∨ t > rl.1) →
        np_interp_nan t prm.sampling_data = none →
        update_parameter t tn dt prm = .error .nanAssert) ∧
    (prm.ptype = .expression → prm.use_preintegration = true →
      prm.is_space_dependent = false →
      ∀ F, prm.preint_sym_expr = some F →
        fdiv (fsub (F t) (F tn)) (some dt) = none →
        update_parameter t tn dt prm = .error .nanAssert) ∧
    (prm.ptype = .from_file → prm.use_preintegration = true →
      fdiv (fsub (np_interp_nan t prm.preint_sampling_data)
          (np_interp_nan tn prm.preint_sampling_data)) (some dt) = none →
      update_parameter t tn dt prm = .error .nanAssert) := by
  refine ⟨?_, ?_, ?_, ?_⟩
  · intro hty hpre
    simp [update_parameter, hty, htd, hpre]
  · intro hty hpre r0 rl hr0 hrl hrange hnan
    simp only [update_parameter, hty, htd, hpre]
    simp only [reduceCtorEq, if_false, Bool.true_eq_false, and_false,
      and_self, if_true, and_true, if_neg, ite_false, ite_true]
    rw [hr0, hrl]
    simp only [if_neg hrange, hnan]
  · intro hty hpre hsp F hF hnan
    simp only [update_parameter, hty, htd, hpre, hsp, hF]
    simp [hnan]
  · intro hty hpre hnan
    simp only [update_parameter, hty, htd, hpre]
    simp [hnan]

/-- A tabulated parameter whose sampled values are NaN. -/
def prmTabNaN : TDParameter :=
  { prmNaN with
    ptype := .from_file,
    sampling_data := [(0, none), (2, none)] }

/-- A pre-integrated expression parameter whose antiderivative
evaluates to NaN. -/
def prmPreExprNaN : TDParameter :=
  { prmNaN with
    use_preintegration := true,
    preint_sym_expr := some (fun _ => none) }

/-- A pre-integrated tabulated parameter whose cumulative-integral
table holds NaN. -/
def prmPreTabNaN : TDParameter :=
  { prmNaN with
    ptype := .from_file,
    use_preintegration := true,
    preint_sampling_data := [(0, none), (2, none)] }

theorem claim_C5_nan_check_coverage_witness :
    update_parameter 1 0 1 prmNaN =
      .ok { prmNaN with value := none, value_vector := [(1, none)] } ∧
    update_parameter 1 0 1 prmTabNaN = .error .nanAssert ∧
    update_parameter 1 0 1 prmPreExprNaN = .error .nanAssert ∧
    update_parameter 1 0 1 prmPreTabNaN = .error .nanAssert := by
  refine ⟨?_, ?_, ?_, ?_⟩
  · exact (claim_C5_nan_check_coverage 1 0 1 prmNaN rfl).1 rfl rfl
  · exact (claim_C5_nan_check_coverage 1 0 1 prmTabNaN rfl).2.1 rfl rfl
      (0, none) (2, none) rfl rfl (by norm_num) rfl
  · exact (claim_C5_nan_check_coverage 1 0 1 prmPreExprNaN rfl).2.2.1 rfl rfl
      rfl (fun _ => none) rfl rfl
  · exact (claim_C5_nan_check_coverage 1 0 1 prmPreTabNaN rfl).2.2.2 rfl rfl
      rfl

/-- Fact: `np.isclose` holds between equal values. -/
theorem np_isclose_self (a : ℚ) : np_isclose a a = true := by
  unfold np_isclose
  simp only [sub_self, abs_zero, decide_eq_true_eq]
  positivity

/-- Sorted access: strictly increasing lists have strictly increasing
entries. -/
theorem sorted_getD_lt (l : List ℚ) (hs : List.Chain' (· < ·) l)
    (i j : ℕ) (hij : i < j) (hj : j < l.length) :
    l.getD i 0 < l.getD j 0 := by
  rw [List.chain'_iff_pairwise] at hs
  have h := List.pairwise_iff_get.mp hs ⟨i, by omega⟩ ⟨j, hj⟩ hij
  rw [List.getD_eq_getElem l 0 (by omega), List.getD_eq_getElem l 0 hj]
  simpa using h

/-- The demo xdmf contents: vector `[0]` stored at time `0`, vector
`[10]` stored at time `1`. -/
def vecsDemo : ℕ → List ℚ := fun i => if i = 0 then [0] else [10]

/-- C10, counterexample: the query time `1e-9` lies strictly between
the samples `0` and `1`, yet `load_vector` returns the vector stored at
time `0` (the `np.isclose` branch fires first), not the unweighted
average `[5]` of the two neighbouring vectors.  This contradicts the
claim that a time strictly between two samples returns the average. -/
theorem claim_C10_counterexample :
    (0:ℚ) < 1/1000000000 ∧ ((1:ℚ)/1000000000) < 1 ∧
    load_vector (1/1000000000) [0, 1] vecsDemo = some [0] ∧
    vec_avg (vecsDemo 0) (vecsDemo 1) = [5] ∧
    ([(0:ℚ)] : List ℚ) ≠ [5] := by
  refine ⟨by norm_num, by norm_num, ?_, by norm_num [vec_avg, vecsDemo], by norm_num⟩
  unfold load_vector
  have h1 : np_isclose ((0:ℚ)) (1/1000000000) = true := by
    unfold np_isclose
    rw [decide_eq_true_eq]
    rw [abs_of_nonpos (by norm_num), abs_of_nonneg (by norm_num)]
    norm_num
  norm_num [List.range_succ, List.filter, h1, List.getD, vecsDemo]

/-- C10 (amended): loading the xdmf-backed vector never fails for a
non-empty time axis; past-the-end times get the last stored vector and
before-the-start times the first (warnings only); a time strictly
between two consecutive samples gets the unweighted average of the two
neighbouring vectors — PROVIDED the query time is not within the
`np.isclose` tolerance of any sample, in which case the first close
sample's vector is returned instead. -/
theorem claim_C10_load_vector_policy (t : ℚ) (tVec : List ℚ)
    (vecs : ℕ → List ℚ) (hne : tVec ≠ []) :
    (load_vector t tVec vecs).isSome = true ∧
    ((∀ i < tVec.length, np_isclose (tVec.getD i 0) t = false) →
      ∀ tl, tVec.getLast? = some tl → tl < t →
        load_vector t tVec vecs = some (vecs (tVec.length - 1))) ∧
    (List.Chain' (· < ·) tVec →
      (∀ i < tVec.length, np_isclose (tVec.getD i 0) t = false) →
      ∀ t0, tVec.head? = some t0 → t < t0 →
        load_vector t tVec vecs = some (vecs 0)) ∧
    (List.Chain' (· < ·) tVec →
      (∀ i < tVec.length, np_isclose (tVec.getD i 0) t = false) →
      ∀ j, j + 1 < tVec.length →
        tVec.getD j 0 < t → t < tVec.getD (j + 1) 0 →
        load_vector t tVec vecs = some (vec_avg (vecs j) (vecs (j + 1)))) := by
  have hlenpos : 0 < tVec.length := List.length_pos.mpr hne
  obtain ⟨tl, htl⟩ : ∃ tl, tVec.getLast? = some tl :=
    ⟨_, List.getLast?_eq_getLast _ hne⟩
  obtain ⟨t0, ht0⟩ : ∃ t0, tVec.head? = some t0 := by
    cases tVec with
    | nil => exact absurd rfl hne
    | cons a l => exact ⟨a, rfl⟩
  have hgd0 : tVec.getD 0 0 = t0 := by
    cases tVec with
    | nil => exact absurd rfl hne
    | cons a l =>
      simp only [List.head?_cons, Option.some.injEq] at ht0
      simp [List.getD, ht0]
  have hgdl : tVec.getD (tVec.length - 1) 0 = tl := by
    have h' : tVec[tVec.length - 1]? = some tl := by
      rw [← List.getLast?_eq_getElem?, htl]
    simp [List.getD, h']
  have hfilter : (∀ i < tVec.length, np_isclose (tVec.getD i 0) t = false) →
      (List.range tVec.length).filter
        (fun i => np_isclose (tVec.getD i 0) t) = [] := by
    intro hnc
    rw [List.filter_eq_nil_iff]
    intro a ha
    rw [List.mem_range] at ha
    simpa using hnc a ha
  refine ⟨?_, ?_, ?_, ?_⟩
  · -- never fails
    unfold load_vector
    dsimp only
    cases hc : ((List.range tVec.length).filter
        (fun i => np_isclose (tVec.getD i 0) t)).head? with
    | some i => simp
    | none =>
      rw [htl, ht0]
      dsimp only
      split
      · simp
      next hgt =>
        split
        · simp
        next hlt =>
          have hnil : (List.range tVec.length).filter
              (fun i => np_isclose (tVec.getD i 0) t) = [] :=
            List.head?_eq_none_iff.mp hc
          have hnc : ∀ i < tVec.length, np_isclose (tVec.getD i 0) t = false := by
            intro i hi
            have h := List.filter_eq_nil_iff.mp hnil i (List.mem_range.mpr hi)
            simpa using h
          have ht0t : t0 < t := by
            rcases lt_or_eq_of_le (not_lt.mp hlt) with h | h
            · exact h
            · exfalso
              have h2 := hnc 0 hlenpos
              rw [hgd0, h, np_isclose_self] at h2
              simp at h2
          have httl : t < tl := by
            rcases lt_or_eq_of_le (not_lt.mp hgt) with h | h
            · exact h
            · exfalso
              have h2 := hnc (tVec.length - 1) (by omega)
              rw [hgdl, ← h, np_isclose_self] at h2
              simp at h2
          have hbel : 0 ∈ (List.range tVec.length).filter
              (fun i => decide (tVec.getD i 0 < t)) := by
            rw [List.mem_filter]
            refine ⟨List.mem_range.mpr hlenpos, ?_⟩
            rw [decide_eq_true_eq, hgd0]
            exact ht0t
          have habo : (tVec.length - 1) ∈ (List.range tVec.length).filter
              (fun i => decide (tVec.getD i 0 > t)) := by
            rw [List.mem_filter]
            refine ⟨List.mem_range.mpr (by omega), ?_⟩
            rw [decide_eq_true_eq, hgdl]
            exact httl
          obtain ⟨i1, hi1⟩ : ∃ i1, ((List.range tVec.length).filter
              (fun i => decide (tVec.getD i 0 < t))).getLast? = some i1 :=
            ⟨_, List.getLast?_eq_getLast _ (List.ne_nil_of_mem hbel)⟩
          obtain ⟨i2, hi2⟩ : ∃ i2, ((List.range tVec.length).filter
              (fun i => decide (tVec.getD i 0 > t))).head? = some i2 := by
            cases he : (List.range tVec.length).filter
                (fun i => decide (tVec.getD i 0 > t)) with
            | nil => rw [he] at habo; cases habo
            | cons a l => exact ⟨a, rfl⟩
          rw [hi1, hi2]
          simp
  · -- past the last sample
    intro hnc tl' htl' hlt
    rw [htl] at htl'
    cases htl'
    unfold load_vector
    rw [hfilter hnc, htl, ht0]
    dsimp only
    rw [if_pos hlt]
    rfl
  · -- before the first sample
    intro hsort hnc t0' ht0' hlt
    rw [ht0] at ht0'
    cases ht0'
    have h0l : t0 ≤ tl := by
      rcases Nat.lt_or_ge 1 tVec.length with h | h
      · have := sorted_getD_lt tVec hsort 0 (tVec.length - 1) (by omega)
          (by omega)
        rw [hgd0, hgdl] at this
        exact this.le
      · have hlen1 : tVec.length - 1 = 0 := by omega
        rw [← hgd0, ← hgdl, hlen1]
    unfold load_vector
    rw [hfilter hnc, htl, ht0]
    dsimp only
    rw [if_neg (not_lt.mpr (le_trans hlt.le h0l)), if_pos hlt]
    rfl
  · -- strictly between two samples
    intro hsort hnc j hj hjt htj1
    have hjle : tVec.getD (j + 1) 0 ≤ tl := by
      rcases Nat.lt_or_ge (j + 1) (tVec.length - 1) with h | h
      · have := sorted_getD_lt tVec hsort (j + 1) (tVec.length - 1) h (by omega)
        rw [hgdl] at this
        exact this.le
      · have : j + 1 = tVec.length - 1 := by omega
        rw [← hgdl, this]
    have h0j : t0 ≤ tVec.getD j 0 := by
      rcases Nat.lt_or_ge 0 j with h | h
      · have := sorted_getD_lt tVec hsort 0 j h (by omega)
        rw [hgd0] at this
        exact this.le
      · have : j = 0 := by omega
        rw [← hgd0, this]
    have hblt : (List.range tVec.length).filter
        (fun i => decide (tVec.getD i 0 < t)) = List.range (j + 1) := by
      have hsplit : List.range tVec.length =
          List.range' 0 (j + 1) ++
            List.range' (j + 1) (tVec.length - (j + 1)) := by
        rw [List.range_eq_range']
        have h := List.range'_append 0 (j + 1) (tVec.length - (j + 1)) 1
        simp only [Nat.one_mul, Nat.zero_add] at h
        rw [show tVec.length - (j + 1) + (j + 1) = tVec.length from by omega]
          at h
        exact h.symm
      rw [hsplit, List.filter_append]
      have h1 : (List.range' 0 (j + 1)).filter
          (fun i => decide (tVec.getD i 0 < t)) = List.range' 0 (j + 1) := by
        apply List.filter_eq_self.mpr
        intro a ha
        rw [List.mem_range'_1] at ha
        simp only [decide_eq_true_eq]
        rcases Nat.lt_or_ge a j with h | h
        · exact lt_trans (sorted_getD_lt tVec hsort a j h (by omega)) hjt
        · rw [show a = j from by omega]
          exact hjt
      have h2 : (List.range' (j + 1) (tVec.length - (j + 1))).filter
          (fun i => decide (tVec.getD i 0 < t)) = [] := by
        rw [List.filter_eq_nil_iff]
        intro a ha
        rw [List.mem_range'_1] at ha
        simp only [decide_eq_true_eq, not_lt]
        rcases Nat.lt_or_ge (j + 1) a with h | h
        · exact (lt_trans htj1
            (sorted_getD_lt tVec hsort (j + 1) a h (by omega))).le
        · rw [show a = j + 1 from by omega]
          exact htj1.le
      rw [h1, h2, List.append_nil, ← List.range_eq_range']
    have habove : (List.range tVec.length).filter
        (fun i => decide (tVec.getD i 0 > t)) =
          List.range' (j + 1) (tVec.length - (j + 1)) := by
      have hsplit : List.range tVec.length =
          List.range' 0 (j + 1) ++
            List.range' (j + 1) (tVec.length - (j + 1)) := by
        rw [List.range_eq_range']
        have h := List.range'_append 0 (j + 1) (tVec.length - (j + 1)) 1
        simp only [Nat.one_mul, Nat.zero_add] at h
        rw [show tVec.length - (j + 1) + (j + 1) = tVec.length from by omega]
          at h
        exact h.symm
      rw [hsplit, List.filter_append]
      have h1 : (List.range' 0 (j + 1)).filter
          (fun i => decide (tVec.getD i 0 > t)) = [] := by
        rw [List.filter_eq_nil_iff]
        intro a ha
        rw [List.mem_range'_1] at ha
        simp only [decide_eq_true_eq, gt_iff_lt, not_lt]
        rcases Nat.lt_or_ge a j with h | h
        · exact (lt_trans (sorted_getD_lt tVec hsort a j h (by omega)) hjt).le
        · rw [show a = j from by omega]
          exact hjt.le
      have h2 : (List.range' (j + 1) (tVec.length - (j + 1))).filter
          (fun i => decide (tVec.getD i 0 > t)) =
            List.range' (j + 1) (tVec.length - (j + 1)) := by
        apply List.filter_eq_self.mpr
        intro a ha
        rw [List.mem_range'_1] at ha
        simp only [decide_eq_true_eq, gt_iff_lt]
        rcases Nat.lt_or_ge (j + 1) a with h | h
        · exact lt_trans htj1 (sorted_getD_lt tVec hsort (j + 1) a h (by omega))
        · rw [show a = j + 1 from by omega]
          exact htj1
      rw [h1, h2, List.nil_append]
    unfold load_vector
    rw [hfilter hnc, htl, ht0]
    dsimp only
    rw [if_neg (not_lt.mpr (le_trans htj1.le hjle)),
      if_neg (not_lt.mpr (le_trans h0j hjt.le)), hblt, habove]
    rw [show j + 1 = j.succ from rfl, List.range_succ, List.getLast?_concat]
    rw [show tVec.length - (j + 1) = (tVec.length - (j + 1) - 1) + 1 from
      by omega, List.range'_succ]
    rfl

theorem claim_C10_load_vector_policy_witness :
    load_vector 1 [0, 2] vecsDemo
      = some (vec_avg (vecsDemo 0) (vecsDemo 1)) ∧
    (load_vector 1 [0, 2] vecsDemo).isSome = true := by
  have hnc : ∀ i < ([0, 2] : List ℚ).length,
      np_isclose (([0, 2] : List ℚ).getD i 0) 1 = false := by
    intro i hi
    simp only [List.length_cons, List.length_nil] at hi
    interval_cases i <;>
      simp only [List.getD, np_isclose, List.getElem?_cons_zero,
        List.getElem?_cons_succ, Option.getD_some, decide_eq_false_iff_not,
        not_le] <;>
      norm_num
  have h := claim_C10_load_vector_policy 1 [0, 2] vecsDemo (by simp)
  refine ⟨?_, h.1⟩
  exact h.2.2.2 (by norm_num) hnc 0 (by norm_num) (by norm_num [List.getD])
    (by norm_num [List.getD])

end Smart
